import Mathlib

/-!
Verification of the rego repository's shared access-layer behaviour.

The Go sources are shallowly embedded: Go strings become `List Char`,
Go `int` becomes `Int` (no value in any reachable trace approaches the
64-bit range, so wraparound is not modelled), fallible calls become
`Except`/`Option`, and the unbounded `for` loop of `GetAllUsers`
becomes a fuel-indexed recursion (`.noFuel` marks fuel exhaustion, so
`∀ fuel, … = .noFuel` expresses non-termination).

Sections:
 * pagination driver of `pkg/backupify/users.go` (`GetAllUsers`)
 * unit converter of `pkg/backupify/users.go` (`convertUserBytes`)
 * client constructor of `pkg/google/google.go` (`NewClient`)
 * client constructor of `pkg/okta/okta.go` (`NewClient`)
-/

/-- The `Users` page/aggregate envelope used by `GetAllUsers`
(`Draw`, `RecordsTotal`, `RecordsFiltered`, `Data`).  Record payloads are
opaque for the pagination claims, so `data` holds abstract record ids. -/
structure Users where
  draw : List Char
  recordsTotal : Int
  recordsFiltered : Int
  data : List Int
deriving DecidableEq

/-- The mutable `userPayload` fields that drive the pagination loop
(`Start`, `Length`); the remaining payload fields are constant. -/
structure PayState where
  start : Int
  length : Int
deriving DecidableEq

/-- How one run of the `for` loop in `GetAllUsers` ends:
normal `break` with the aggregate, `c.Log.Fatal` on a failed page call,
or fuel exhaustion (the embedded stand-in for "still looping"). -/
inductive LoopResult where
  | done (aggregate : Users)
  | fatal (e : Int)
  | noFuel
deriving DecidableEq

/-- The pagination loop of `GetAllUsers` (users.go lines 105-124).
`resp` models `do[Users]` as a function from the posted
`(Start, Length)` window to the provider's response.  Returns the list
of issued requests (in order) together with how the loop ended.
Faithful points: `remainingUsers := users.RecordsTotal - userPayload.Length`;
the shrink test `remainingUsers < userPayload.Length`; the advance test
`userPayload.Start <= users.RecordsTotal`; a page's records are appended
only on the advance branch (the `break` branch copies the counts and
discards the final page's records). -/
def usersLoop (resp : Int × Int → Except Int Users) :
    Nat → PayState → List Int → List (Int × Int) × LoopResult
  | 0, _, _ => ([], .noFuel)
  | fuel + 1, s, acc =>
    match resp (s.start, s.length) with
    | .error e => ([(s.start, s.length)], .fatal e)
    | .ok users =>
      let remainingUsers := users.recordsTotal - s.length
      let newLength := if remainingUsers < s.length then remainingUsers else s.length
      if s.start ≤ users.recordsTotal then
        let rest := usersLoop resp fuel ⟨s.start + newLength, newLength⟩ (acc ++ users.data)
        ((s.start, s.length) :: rest.1, rest.2)
      else
        ([(s.start, s.length)], .done ⟨users.draw, users.recordsTotal, users.recordsFiltered, acc⟩)

/-- One cache slot for the fixed `GetAllUsers` url key. -/
structure CacheEntry where
  value : Users
  expiresAt : Int
deriving DecidableEq

/-- Modelled from the spec: `GetCache` lives in the common cache package,
which is not among the sources; spec §4.2 states `get(key) → (value, found)`
where an entry is visible only until `expiresAt` and an expired entry
behaves as absent (`ttl = 0` is already expired on the next `get`). -/
def getCache (cache : Option CacheEntry) (now : Int) : Option Users :=
  match cache with
  | none => none
  | some e => if now < e.expiresAt then some e.value else none

/-- One hour in the units of Go `time.Duration` (nanoseconds). -/
def goHour : Int := 3600000000000

/-- Modelled from the spec: `SetCache` of the common cache package (not among
the sources); spec §4.2 states `set(key, value, ttl)` overwrites any prior
entry unconditionally.  `GetAllUsers` calls it with a 3-hour ttl. -/
def setCache (now : Int) (value : Users) : Option CacheEntry :=
  some ⟨value, now + 3 * goHour⟩

/-- Possible outcomes of one `GetAllUsers` call.  `returned` carries the
number of network page requests issued; `errReturned` is the outcome the
signature `(*Users, error)` allows for a non-nil error result (the code
never produces it); `fatalExit` is `c.Log.Fatal`, which terminates the
process. -/
inductive FetchOutcome where
  | returned (aggregate : Users) (netRequests : Nat)
  | errReturned (e : Int)
  | fatalExit (e : Int)
  | outOfFuel
deriving DecidableEq

/-- Model of `GetAllUsers` (users.go lines 36-129): consult the cache first and
return the hit with no network calls; otherwise run the pagination loop
from `Start = 0, Length = 75`, then cache the aggregate for 3 hours and
return it.  A failed page call hits `c.Log.Fatal`.  (The
`convertUserBytes` post-processing acts on record payloads, which are
opaque here; it is modelled separately below.) -/
def getAllUsersModel (cache : Option CacheEntry) (now : Int)
    (resp : Int × Int → Except Int Users) (fuel : Nat) :
    FetchOutcome × Option CacheEntry :=
  match getCache cache now with
  | some u => (.returned u 0, cache)
  | none =>
    match usersLoop resp fuel ⟨0, 75⟩ [] with
    | (log, .done u) => (.returned u log.length, setCache now u)
    | (_, .fatal e) => (.fatalExit e, cache)
    | (_, .noFuel) => (.outOfFuel, cache)

/-- A synthetic well-behaved provider holding `total` records with ids
`0, 1, …, total - 1`: a page request `(start, length)` returns the ids in
`[start, start + length) ∩ [0, total)` and reports `RecordsTotal = total`. -/
def pageOf (total : Int) (p : Int × Int) : Users :=
  let lo := max p.1 0
  let hi := min (p.1 + p.2) total
  ⟨['1'], total, total, (List.range (hi - lo).toNat).map (fun i => lo + i)⟩

/-- The C1 synthetic provider: 180 records, every page call succeeds. -/
def resp180 : Int × Int → Except Int Users := fun p => .ok (pageOf 180 p)

/-- A provider that reports `RecordsTotal = 0` and no records on every
response (the C2 zero-record scenario). -/
def respZero : Int × Int → Except Int Users := fun _ => .ok ⟨['1'], 0, 0, []⟩

/-- Against `respZero`, from any state with `start ≤ 0` the loop body always
takes the advance branch and re-establishes `start ≤ 0`, so it consumes all
fuel: one request per unit of fuel and never a `done` or `fatal` outcome. -/
theorem usersLoop_respZero_spin (fuel : Nat) :
    ∀ s : PayState, ∀ acc : List Int, s.start ≤ 0 →
      (usersLoop respZero fuel s acc).1.length = fuel ∧
        (usersLoop respZero fuel s acc).2 = .noFuel := by
  induction fuel with
  | zero => intro s acc _; simp [usersLoop]
  | succ n ih =>
    intro s acc hs
    have hnext : (if (0 : Int) - s.length < s.length then 0 - s.length else s.length) ≤ 0 := by
      by_cases h : (0 : Int) - s.length < s.length
      · simp only [if_pos h]; omega
      · simp only [if_neg h]; omega
    have hstart : s.start + (if (0 : Int) - s.length < s.length then 0 - s.length else s.length) ≤ 0 := by
      omega
    have ihs := ih ⟨s.start + (if (0 : Int) - s.length < s.length then 0 - s.length else s.length),
      (if (0 : Int) - s.length < s.length then 0 - s.length else s.length)⟩ (acc ++ []) hstart
    simp only [usersLoop, respZero, if_pos hs]
    constructor
    · simpa using ihs.1
    · simpa using ihs.2

/-- Claim C2: for a provider whose every response reports `RecordsTotal = 0`
with no records, the pagination loop of `GetAllUsers` never terminates: after
the first request `Start` becomes `-75` and keeps decreasing, so the `break`
condition `Start > RecordsTotal` never holds.  For every fuel bound the loop
issues exactly `fuel` requests and ends only by fuel exhaustion, and the full
`GetAllUsers` model never returns — contradicting the specified single
request with an empty aggregate. -/
theorem getAllUsers_zeroTotal_diverges (fuel : Nat) (now : Int) :
    (usersLoop respZero fuel ⟨0, 75⟩ []).1.length = fuel ∧
      (usersLoop respZero fuel ⟨0, 75⟩ []).2 = .noFuel ∧
      (getAllUsersModel none now respZero fuel).1 = .outOfFuel := by
  obtain ⟨h1, h2⟩ := usersLoop_respZero_spin fuel ⟨0, 75⟩ [] (by norm_num)
  refine ⟨h1, h2, ?_⟩
  simp only [getAllUsersModel, getCache]
  rcases hl : usersLoop respZero fuel ⟨0, 75⟩ [] with ⟨log, r⟩
  rw [hl] at h2
  cases r with
  | done u => simp at h2
  | fatal e => simp at h2
  | noFuel => simp

/-- Claim C1 counterexample: against the synthetic 180-record provider with
initial page length 75, the loop issues 4 requests — starts 0, 75, 150, 225,
every length 75 — not the claimed 3 requests, and the last request's length
is 75, not 30 (because `remainingUsers` is `RecordsTotal - Length = 105`,
never below `Length`).  The aggregate does contain the 180 records in
arrival order. -/
theorem getAllUsers_180_not_three_requests :
    (usersLoop resp180 10 ⟨0, 75⟩ []).1 = [(0, 75), (75, 75), (150, 75), (225, 75)] ∧
      (usersLoop resp180 10 ⟨0, 75⟩ []).1.length ≠ 3 ∧
      (usersLoop resp180 10 ⟨0, 75⟩ []).1.getLast? ≠ some (150, 30) := by
  refine ⟨?_, ?_, ?_⟩ <;> decide

set_option maxRecDepth 4000 in
/-- Claim C1 amended: against the synthetic 180-record provider with initial
page length 75, one run of the loop issues exactly 4 page requests with
start offsets 0, 75, 150, 225 and length 75 on every request (the length is
never shrunk, since the code computes `remainingUsers` from
`RecordsTotal - Length`), and the returned aggregate holds exactly the 180
records in page-arrival order — pages `[0,75)`, `[75,150)`, `[150,180)` —
while the empty fourth page is discarded by the `break` branch. -/
theorem getAllUsers_180_exhaustion :
    usersLoop resp180 10 ⟨0, 75⟩ [] =
      ([(0, 75), (75, 75), (150, 75), (225, 75)],
        .done ⟨['1'], 180, 180, (List.range 180).map (fun i => (i : Int))⟩) := by
  decide

/-- A provider whose very first page call fails with error code 7. -/
def respFail : Int × Int → Except Int Users := fun _ => .error 7

/-- Claim C3 counterexample: when the first page call fails (error 7) the
`GetAllUsers` outcome is `fatalExit 7` — `c.Log.Fatal` terminates the
process — and in particular the error is not surfaced as the function's
error result (`errReturned`); the cache is left untouched. -/
theorem getAllUsers_error_not_returned :
    getAllUsersModel none 0 respFail 5 = (.fatalExit 7, none) ∧
      (getAllUsersModel none 0 respFail 5).1 ≠ .errReturned 7 := by
  constructor <;> decide

/-- Claim C3 amended: if any page request inside `GetAllUsers` fails, the
whole aggregation aborts through `c.Log.Fatal`, which terminates the
process: the caller never receives a truncated aggregate (the outcome is
neither `returned` nor `errReturned`) and nothing is written to the cache —
but the error is not returned as the function's error result. -/
theorem getAllUsers_pageError_fatal (cache : Option CacheEntry) (now : Int)
    (resp : Int × Int → Except Int Users) (fuel : Nat)
    (log : List (Int × Int)) (e : Int)
    (hmiss : getCache cache now = none)
    (hloop : usersLoop resp fuel ⟨0, 75⟩ [] = (log, .fatal e)) :
    getAllUsersModel cache now resp fuel = (.fatalExit e, cache) ∧
      (∀ u n, (getAllUsersModel cache now resp fuel).1 ≠ .returned u n) ∧
      (∀ e', (getAllUsersModel cache now resp fuel).1 ≠ .errReturned e') := by
  have h : getAllUsersModel cache now resp fuel = (.fatalExit e, cache) := by
    simp only [getAllUsersModel, hmiss, hloop]
  exact ⟨h, fun u n => by simp [h], fun e' => by simp [h]⟩

/-- Witness for `getAllUsers_pageError_fatal` at the concrete failing
provider `respFail`. -/
theorem getAllUsers_pageError_fatal_witness :
    getAllUsersModel none 0 respFail 5 = (.fatalExit 7, none) ∧
      (∀ u n, (getAllUsersModel none 0 respFail 5).1 ≠ .returned u n) ∧
      (∀ e', (getAllUsersModel none 0 respFail 5).1 ≠ .errReturned e') :=
  getAllUsers_pageError_fatal none 0 respFail 5 [(0, 75)] 7 (by decide) (by decide)

/-- A successful first call stores the aggregate it returns under a 3-hour
expiry. -/
theorem getAllUsers_caches_result (now : Int)
    (resp : Int × Int → Except Int Users) (fuel : Nat)
    (u : Users) (n : Nat) (cache' : Option CacheEntry)
    (h : getAllUsersModel none now resp fuel = (.returned u n, cache')) :
    cache' = some ⟨u, now + 3 * goHour⟩ := by
  simp only [getAllUsersModel, getCache] at h
  rcases hl : usersLoop resp fuel ⟨0, 75⟩ [] with ⟨log, r⟩
  rw [hl] at h
  cases r with
  | done v =>
    simp only [setCache] at h
    obtain ⟨h1, h2⟩ := Prod.mk.injEq .. ▸ h
    cases h1
    exact h2.symm
  | fatal e => simp at h
  | noFuel => simp at h

/-- Claim C4: if a first `GetAllUsers` call at time `t0` finds no cached
entry, completes and returns aggregate `u`, then a second call at any time
`t` still inside the 3-hour TTL window finds the cached entry and returns
the identical aggregate with zero network page requests, regardless of the
provider behaviour or fuel of the second call; the cache is unchanged. -/
theorem getAllUsers_second_call_cached (t0 t : Int)
    (resp resp' : Int × Int → Except Int Users) (fuel fuel' : Nat)
    (u : Users) (n : Nat) (cache' : Option CacheEntry)
    (hfirst : getAllUsersModel none t0 resp fuel = (.returned u n, cache'))
    (httl : t < t0 + 3 * goHour) :
    getAllUsersModel cache' t resp' fuel' = (.returned u 0, cache') := by
  have hc : cache' = some ⟨u, t0 + 3 * goHour⟩ :=
    getAllUsers_caches_result t0 resp fuel u n cache' hfirst
  subst hc
  simp only [getAllUsersModel, getCache, if_pos httl]

/-- Witness for `getAllUsers_second_call_cached`: first call against the
180-record provider at time 0, second call one hour later against the
always-failing provider with no fuel — still answered from the cache. -/
theorem getAllUsers_second_call_cached_witness :
    getAllUsersModel (some ⟨⟨['1'], 180, 180, (List.range 180).map (fun i => (i : Int))⟩,
        3 * goHour⟩) goHour respFail 0 =
      (.returned ⟨['1'], 180, 180, (List.range 180).map (fun i => (i : Int))⟩ 0,
        some ⟨⟨['1'], 180, 180, (List.range 180).map (fun i => (i : Int))⟩, 3 * goHour⟩) :=
  getAllUsers_second_call_cached 0 goHour resp180 respFail 10 0
    ⟨['1'], 180, 180, (List.range 180).map (fun i => (i : Int))⟩ 4
    (some ⟨⟨['1'], 180, 180, (List.range 180).map (fun i => (i : Int))⟩, 3 * goHour⟩)
    (by set_option maxRecDepth 4000 in decide) (by decide)

/-- Claim C7 counterexample: against the all-zero provider the second
request's start offset is `-75 < 0` — the request window's start strictly
decreases, refuting monotone non-decrease for arbitrary provider
responses. -/
theorem usersLoop_start_decreases :
    (usersLoop respZero 2 ⟨0, 75⟩ []).1 = [(0, 75), (-75, -75)] ∧
      ¬ List.Chain' (fun a b : Int × Int => a.1 ≤ b.1)
          ((usersLoop respZero 2 ⟨0, 75⟩ []).1) := by
  have htr : (usersLoop respZero 2 ⟨0, 75⟩ []).1 = [(0, 75), (-75, -75)] := by decide
  refine ⟨htr, ?_⟩
  rw [htr]
  intro h
  have h01 := (List.chain'_cons.mp h).1
  norm_num at h01

/-- If the trace of issued requests is nonempty, its head is the request
built from the entry state. -/
theorem usersLoop_head (resp : Int × Int → Except Int Users)
    (fuel : Nat) (s : PayState) (acc : List Int) (p : Int × Int)
    (h : (usersLoop resp fuel s acc).1.head? = some p) : p.1 = s.start := by
  obtain ⟨p1, p2⟩ := p
  dsimp only
  cases fuel with
  | zero => simp [usersLoop] at h
  | succ n =>
    rw [usersLoop] at h
    rcases hr : resp (s.start, s.length) with e | users <;> rw [hr] at h
    · simp at h
      omega
    · by_cases hc : s.start ≤ users.recordsTotal
      · simp only [if_pos hc, List.head?_cons, Option.some.injEq, Prod.mk.injEq] at h
        omega
      · simp only [if_neg hc, List.head?_cons, Option.some.injEq, Prod.mk.injEq] at h
        omega

/-- Under providers that always report at least the requested length as the
total (for nonnegative requested lengths), the new length stays nonnegative
and the start offsets along the request trace never decrease. -/
theorem usersLoop_start_mono (resp : Int × Int → Except Int Users)
    (hresp : ∀ st ln users, 0 ≤ ln → resp (st, ln) = .ok users →
      ln ≤ users.recordsTotal) :
    ∀ fuel : Nat, ∀ s : PayState, ∀ acc : List Int, 0 ≤ s.length →
      List.Chain' (fun a b : Int × Int => a.1 ≤ b.1) (usersLoop resp fuel s acc).1 := by
  intro fuel
  induction fuel with
  | zero => intro s acc _; simp [usersLoop]
  | succ n ih =>
    intro s acc hlen
    rw [usersLoop]
    rcases hr : resp (s.start, s.length) with e | users
    · simp
    · have htot : s.length ≤ users.recordsTotal := hresp s.start s.length users hlen hr
      have hlen' : 0 ≤ (if users.recordsTotal - s.length < s.length
          then users.recordsTotal - s.length else s.length) := by
        by_cases h : users.recordsTotal - s.length < s.length
        · simp only [if_pos h]; omega
        · simp only [if_neg h]; omega
      by_cases hc : s.start ≤ users.recordsTotal
      · simp only [if_pos hc]
        refine List.chain'_cons'.mpr ⟨?_, ih _ (acc ++ users.data) hlen'⟩
        intro p hp
        have hhead := usersLoop_head resp n _ (acc ++ users.data) p (Option.mem_def.mp hp)
        dsimp only at hhead
        show s.start ≤ p.1
        omega
      · simp only [if_neg hc]
        simp

/-- Claim C7 amended: within one pagination run of `GetAllUsers` the request
start offsets are monotonically non-decreasing provided every successful
response reports a `RecordsTotal` at least as large as the (nonnegative)
requested length; without that proviso the code can decrease the offset
(see the zero-total counterexample), because the next length
`RecordsTotal - Length` can be negative. -/
theorem getAllUsers_start_mono (resp : Int × Int → Except Int Users)
    (hresp : ∀ st ln users, 0 ≤ ln → resp (st, ln) = .ok users →
      ln ≤ users.recordsTotal) (fuel : Nat) :
    List.Chain' (fun a b : Int × Int => a.1 ≤ b.1)
      (usersLoop resp fuel ⟨0, 75⟩ []).1 :=
  usersLoop_start_mono resp hresp fuel ⟨0, 75⟩ [] (by norm_num)

/-- An echo provider reporting exactly the requested length as the total. -/
def respEcho : Int × Int → Except Int Users := fun p => .ok ⟨['1'], max p.2 0, 0, []⟩

/-- Witness for `getAllUsers_start_mono` at the echo provider. -/
theorem getAllUsers_start_mono_witness :
    List.Chain' (fun a b : Int × Int => a.1 ≤ b.1)
      (usersLoop respEcho 3 ⟨0, 75⟩ []).1 :=
  getAllUsers_start_mono respEcho
    (fun st ln users hln hok => by
      simp only [respEcho, Except.ok.injEq] at hok
      subst hok
      exact le_max_left ln 0) 3

/-- Model of `strings.Index(s, " ")` in `convertUserBytes` (users.go line 151):
the index of the first space, `none` standing for Go's `-1`, in which case
the slice `s[:-1]` panics with a slice-bounds error. -/
def goIndexSpace : List Char → Option Nat
  | [] => none
  | c :: cs => if c = ' ' then some 0 else (goIndexSpace cs).map (· + 1)

/-- Decimal digit-string value. -/
def digitsToNat (ds : List Char) : Nat :=
  ds.foldl (fun n c => 10 * n + (c.toNat - '0'.toNat)) 0

/-- Model of `strconv.ParseFloat` (users.go line 151) on plain decimal numerals
`d⁺` or `d⁺.d⁺`, with exact rational semantics; every numeric value the
claims mention (512, 2, 1, 1.5) is exactly representable in float64, so the
exact-rational embedding agrees with the Go float64 arithmetic there.
Anything else (including strings with no digits) is a parse error. -/
def parseNum (s : List Char) : Option ℚ :=
  if s.takeWhile Char.isDigit = [] then none
  else
    match s.dropWhile Char.isDigit with
    | [] => some ((digitsToNat (s.takeWhile Char.isDigit) : ℚ))
    | '.' :: fs =>
      if fs = [] then none
      else if fs.all Char.isDigit then
        some ((digitsToNat (s.takeWhile Char.isDigit) : ℚ) +
          (digitsToNat fs : ℚ) / (10 : ℚ) ^ fs.length)
      else none
    | _ => none

/-- Model of `strings.Contains(s, sub)`: some offset of `s` starts with `sub`. -/
def hasSub (s sub : List Char) : Bool :=
  (List.range (s.length + 1)).any (fun i => (s.drop i).take sub.length == sub)

/-- The unit `switch` of `convertUserBytes` (users.go lines 158-169), cases
tried in source order on the whole record string, with
`megabyte = kilobyte²`, `gigabyte = kilobyte³`, `terabyte = kilobyte⁴`
recomputed from the chosen `kilobyte`; when no case matches the derived
field keeps its zero value. -/
def switchVal (kilobyte usedBytes : ℚ) (s : List Char) : ℚ :=
  if hasSub s ("bytes".toList) then usedBytes
  else if hasSub s ("KB".toList) then usedBytes * kilobyte
  else if hasSub s ("MB".toList) then usedBytes * (kilobyte * kilobyte)
  else if hasSub s ("GB".toList) then usedBytes * (kilobyte * kilobyte * kilobyte)
  else if hasSub s ("TB".toList) then usedBytes * (kilobyte * kilobyte * kilobyte * kilobyte)
  else 0

/-- The `kilobyte` value chosen by `useBinary` (users.go lines 133-138). -/
def kbOf (useBinary : Bool) : ℚ := if useBinary then 1024 else 1000

/-- Fate of one record inside `convertUserBytes`: a runtime panic on the
negative slice bound when the string has no space; a logged per-record
parse error leaving the derived field unset; or a derived value. -/
inductive ConvResult where
  | panicked
  | convError
  | value (v : ℚ)
deriving DecidableEq

/-- One record's conversion (the goroutine body, users.go lines 147-172). -/
def convertOne (kilobyte : ℚ) (s : List Char) : ConvResult :=
  match goIndexSpace s with
  | none => .panicked
  | some i =>
    match parseNum (s.take i) with
    | none => .convError
    | some usedBytes => .value (switchVal kilobyte usedBytes s)

def isPanicked : ConvResult → Bool
  | .panicked => true
  | _ => false

/-- Model of `convertUserBytes` over a batch of record strings (users.go lines
131-176).  A panic in any per-record goroutine crashes the whole process
(`none`); otherwise every record completes with its own result. -/
def convertUserBytes (useBinary : Bool) (records : List (List Char)) :
    Option (List ConvResult) :=
  if records.any (fun r => isPanicked (convertOne (kbOf useBinary) r)) then none
  else some (records.map (fun r => convertOne (kbOf useBinary) r))

/-- A string ending in `sub` contains `sub`. -/
theorem hasSub_append_self (a sub : List Char) : hasSub (a ++ sub) sub = true := by
  unfold hasSub
  rw [List.any_eq_true]
  refine ⟨a.length, List.mem_range.mpr ?_, ?_⟩
  · rw [List.length_append]; omega
  · rw [List.drop_left, List.take_length]
    exact beq_self_eq_true sub

/-- If some character of `sub` does not occur in `s` then `s` does not
contain `sub`. -/
theorem hasSub_eq_false (s sub : List Char) (c : Char)
    (hc : c ∈ sub) (hs : c ∉ s) : hasSub s sub = false := by
  by_contra h
  rw [Bool.not_eq_false, hasSub, List.any_eq_true] at h
  obtain ⟨i, _, heq⟩ := h
  have hsub : sub = (s.drop i).take sub.length := (eq_of_beq heq).symm
  exact hs (List.drop_subset i s (List.take_subset _ _ (hsub ▸ hc)))

/-- A successfully parsed numeral consists of digits and dots only. -/
theorem parseNum_chars (s : List Char) (q : ℚ) (h : parseNum s = some q) :
    ∀ c ∈ s, c.isDigit = true ∨ c = '.' := by
  intro c hc
  have hs := @List.takeWhile_append_dropWhile Char Char.isDigit s
  rw [← hs] at hc
  rcases List.mem_append.mp hc with h1 | h2
  · exact Or.inl (List.mem_takeWhile_imp h1)
  · unfold parseNum at h
    split at h
    · exact absurd h (by simp)
    · split at h
      · rename_i heq
        rw [heq] at h2
        exact absurd h2 (List.not_mem_nil c)
      · rename_i fs heq
        rw [heq] at h2
        rcases List.mem_cons.mp h2 with hdot | hfs
        · exact Or.inr hdot
        · split at h
          · exact absurd h (by simp)
          · split at h
            · rename_i hall
              exact Or.inl (List.all_eq_true.mp hall c hfs)
            · exact absurd h (by simp)
      · exact absurd h (by simp)

/-- First-space index of `num ++ " " ++ rest` when `num` has no space. -/
theorem goIndexSpace_append (num r : List Char) (h : ' ' ∉ num) :
    goIndexSpace (num ++ ' ' :: r) = some num.length := by
  induction num with
  | nil => simp [goIndexSpace]
  | cons a as ih =>
    have ha : ¬ a = ' ' := fun hh => h (hh ▸ List.mem_cons_self a as)
    rw [List.cons_append, goIndexSpace, if_neg ha,
      ih (fun hm => h (List.mem_cons_of_mem a hm))]
    simp

/-- On a well-formed `"<number> <unit>"` string the goroutine body reaches
the unit switch with the parsed number. -/
theorem convertOne_wellFormed (kilobyte : ℚ) (num unit : List Char) (q : ℚ)
    (hq : parseNum num = some q) :
    convertOne kilobyte (num ++ ' ' :: unit) =
      .value (switchVal kilobyte q (num ++ ' ' :: unit)) := by
  have hnospace : ' ' ∉ num := fun hm => by
    rcases parseNum_chars num q hq ' ' hm with hd | hdot
    · exact absurd hd (by decide)
    · exact absurd hdot (by decide)
  unfold convertOne
  rw [goIndexSpace_append num unit hnospace]
  dsimp only
  rw [List.take_left, hq]

/-- Claim C5: the record string `"N/A"` contains no space, so
`strings.Index` yields `-1` and the slice `UsedBytes[:-1]` panics, crashing
the whole batch — the code does not log-and-continue on this record.  A
batch containing `"N/A"` dies (`none`), while a parse failure occurring
after a space (`"x KB"`) is handled gracefully as the claim describes. -/
theorem convertUserBytes_NA_panics :
    convertOne (kbOf false) ("N/A".toList) = .panicked ∧
      convertUserBytes false ["N/A".toList, "x KB".toList] = none ∧
      convertUserBytes false ["x KB".toList] = some [.convError] := by
  refine ⟨?_, ?_, ?_⟩ <;> decide

/-- Characters of a parsed numeral are never unit letters. -/
theorem parseNum_no_unit_char (num : List Char) (q : ℚ)
    (hq : parseNum num = some q) (c : Char)
    (hcd : c.isDigit = false) (hcdot : c ≠ '.') : c ∉ num := fun hm => by
  rcases parseNum_chars num q hq c hm with h1 | h2
  · rw [hcd] at h1; exact Bool.noConfusion h1
  · exact hcdot h2

/-- A non-digit, non-dot character absent from the unit tail is absent
from the whole record string. -/
theorem no_char_in_record (num : List Char) (q : ℚ) (hq : parseNum num = some q)
    (c : Char) (hcd : c.isDigit = false) (hcdot : c ≠ '.') (unit : List Char)
    (hcu : c ∉ ' ' :: unit) : c ∉ num ++ ' ' :: unit := fun hm => by
  rcases List.mem_append.mp hm with h1 | h2
  · exact parseNum_no_unit_char num q hq c hcd hcdot h1
  · exact hcu h2

/-- Record strings re-associated for the contains-suffix lemma. -/
theorem record_assoc (num unit : List Char) :
    num ++ ' ' :: unit = (num ++ [' ']) ++ unit := by
  rw [List.append_assoc]; rfl

/-- A record `"<number> bytes"` hits the first switch case: the derived value is the
parsed number itself. -/
theorem convertOne_unit_bytes (kb : ℚ) (num : List Char) (q : ℚ)
    (hq : parseNum num = some q) :
    convertOne kb (num ++ ' ' :: "bytes".toList) = .value q := by
  rw [convertOne_wellFormed kb num _ q hq]
  unfold switchVal
  rw [record_assoc, hasSub_append_self]
  simp

/-- A record `"<number> KB"` multiplies by `kilobyte`. -/
theorem convertOne_unit_KB (kb : ℚ) (num : List Char) (q : ℚ)
    (hq : parseNum num = some q) :
    convertOne kb (num ++ ' ' :: "KB".toList) = .value (q * kb) := by
  rw [convertOne_wellFormed kb num _ q hq]
  unfold switchVal
  rw [hasSub_eq_false _ _ 'y' (by decide)
      (no_char_in_record num q hq 'y' (by decide) (by decide) _ (by decide)),
    record_assoc, hasSub_append_self]
  simp

/-- A record `"<number> MB"` multiplies by `kilobyte²`. -/
theorem convertOne_unit_MB (kb : ℚ) (num : List Char) (q : ℚ)
    (hq : parseNum num = some q) :
    convertOne kb (num ++ ' ' :: "MB".toList) = .value (q * kb ^ 2) := by
  rw [convertOne_wellFormed kb num _ q hq]
  unfold switchVal
  rw [hasSub_eq_false _ _ 'y' (by decide)
      (no_char_in_record num q hq 'y' (by decide) (by decide) _ (by decide)),
    hasSub_eq_false _ _ 'K' (by decide)
      (no_char_in_record num q hq 'K' (by decide) (by decide) _ (by decide)),
    record_assoc, hasSub_append_self]
  simp only [Bool.false_eq_true, if_false, if_true]
  rw [show q * (kb * kb) = q * kb ^ 2 from by ring]

/-- A record `"<number> GB"` multiplies by `kilobyte³`. -/
theorem convertOne_unit_GB (kb : ℚ) (num : List Char) (q : ℚ)
    (hq : parseNum num = some q) :
    convertOne kb (num ++ ' ' :: "GB".toList) = .value (q * kb ^ 3) := by
  rw [convertOne_wellFormed kb num _ q hq]
  unfold switchVal
  rw [hasSub_eq_false _ _ 'y' (by decide)
      (no_char_in_record num q hq 'y' (by decide) (by decide) _ (by decide)),
    hasSub_eq_false _ _ 'K' (by decide)
      (no_char_in_record num q hq 'K' (by decide) (by decide) _ (by decide)),
    hasSub_eq_false _ _ 'M' (by decide)
      (no_char_in_record num q hq 'M' (by decide) (by decide) _ (by decide)),
    record_assoc, hasSub_append_self]
  simp only [Bool.false_eq_true, if_false, if_true]
  rw [show q * (kb * kb * kb) = q * kb ^ 3 from by ring]

/-- A record `"<number> TB"` multiplies by `kilobyte⁴`. -/
theorem convertOne_unit_TB (kb : ℚ) (num : List Char) (q : ℚ)
    (hq : parseNum num = some q) :
    convertOne kb (num ++ ' ' :: "TB".toList) = .value (q * kb ^ 4) := by
  rw [convertOne_wellFormed kb num _ q hq]
  unfold switchVal
  rw [hasSub_eq_false _ _ 'y' (by decide)
      (no_char_in_record num q hq 'y' (by decide) (by decide) _ (by decide)),
    hasSub_eq_false _ _ 'K' (by decide)
      (no_char_in_record num q hq 'K' (by decide) (by decide) _ (by decide)),
    hasSub_eq_false _ _ 'M' (by decide)
      (no_char_in_record num q hq 'M' (by decide) (by decide) _ (by decide)),
    hasSub_eq_false _ _ 'G' (by decide)
      (no_char_in_record num q hq 'G' (by decide) (by decide) _ (by decide)),
    record_assoc, hasSub_append_self]
  simp only [Bool.false_eq_true, if_false, if_true]
  rw [show q * (kb * kb * kb * kb) = q * kb ^ 4 from by ring]

/-- A batch whose records all convert to values completes with exactly
those values. -/
theorem convertUserBytes_singleton (useBinary : Bool) (s : List Char) (v : ℚ)
    (h : convertOne (kbOf useBinary) s = .value v) :
    convertUserBytes useBinary [s] = some [.value v] := by
  unfold convertUserBytes
  simp [h, isPanicked]

/-- Integer numerals parse to their value. -/
theorem parseNum_512 : parseNum ("512".toList) = some 512 := by
  unfold parseNum
  rw [show ("512".toList.takeWhile Char.isDigit) = "512".toList from by decide,
    show ("512".toList.dropWhile Char.isDigit) = [] from by decide,
    if_neg (by decide : ¬("512".toList : List Char) = [])]
  rw [show digitsToNat ("512".toList) = 512 from by decide]
  norm_num

theorem parseNum_2 : parseNum ("2".toList) = some 2 := by
  unfold parseNum
  rw [show ("2".toList.takeWhile Char.isDigit) = "2".toList from by decide,
    show ("2".toList.dropWhile Char.isDigit) = [] from by decide,
    if_neg (by decide : ¬("2".toList : List Char) = [])]
  rw [show digitsToNat ("2".toList) = 2 from by decide]
  norm_num

theorem parseNum_1 : parseNum ("1".toList) = some 1 := by
  unfold parseNum
  rw [show ("1".toList.takeWhile Char.isDigit) = "1".toList from by decide,
    show ("1".toList.dropWhile Char.isDigit) = [] from by decide,
    if_neg (by decide : ¬("1".toList : List Char) = [])]
  rw [show digitsToNat ("1".toList) = 1 from by decide]
  norm_num

/-- The numeral `"1.5"` parses to `3/2`. -/
theorem parseNum_1_5 : parseNum ("1.5".toList) = some (3 / 2) := by
  have h : parseNum ("1.5".toList) =
      some ((digitsToNat ['1'] : ℚ) +
        (digitsToNat ['5'] : ℚ) / (10 : ℚ) ^ (['5'] : List Char).length) := rfl
  rw [h, show digitsToNat ['1'] = 1 from by decide,
    show digitsToNat ['5'] = 5 from by decide]
  norm_num

/-- Claim C6: on every well-formed record string `"<number> <unit>"` whose
numeric part parses to `q`, `convertUserBytes` derives `q`, `q·base`,
`q·base²`, `q·base³`, `q·base⁴` for units `bytes, KB, MB, GB, TB`
respectively, with base 1024 when `useBinary` and 1000 otherwise; in
particular `"512 bytes"` gives 512, `"2 KB"` with decimal base 2000,
`"1 MB"` with binary base 1048576, and `"1.5 GB"` with decimal base
1500000000. -/
theorem convertUserBytes_unit_table (useBinary : Bool) (num : List Char) (q : ℚ)
    (hq : parseNum num = some q) :
    convertUserBytes useBinary [num ++ " bytes".toList, num ++ " KB".toList,
        num ++ " MB".toList, num ++ " GB".toList, num ++ " TB".toList] =
      some [.value q, .value (q * kbOf useBinary), .value (q * kbOf useBinary ^ 2),
        .value (q * kbOf useBinary ^ 3), .value (q * kbOf useBinary ^ 4)] ∧
      convertUserBytes false ["512 bytes".toList] = some [.value 512] ∧
      convertUserBytes false ["2 KB".toList] = some [.value 2000] ∧
      convertUserBytes true ["1 MB".toList] = some [.value 1048576] ∧
      convertUserBytes false ["1.5 GB".toList] = some [.value 1500000000] := by
  refine ⟨?_, ?_, ?_, ?_, ?_⟩
  · have hb := convertOne_unit_bytes (kbOf useBinary) num q hq
    have hk := convertOne_unit_KB (kbOf useBinary) num q hq
    have hm := convertOne_unit_MB (kbOf useBinary) num q hq
    have hg := convertOne_unit_GB (kbOf useBinary) num q hq
    have htb := convertOne_unit_TB (kbOf useBinary) num q hq
    rw [show (" bytes".toList : List Char) = ' ' :: "bytes".toList from rfl,
      show (" KB".toList : List Char) = ' ' :: "KB".toList from rfl,
      show (" MB".toList : List Char) = ' ' :: "MB".toList from rfl,
      show (" GB".toList : List Char) = ' ' :: "GB".toList from rfl,
      show (" TB".toList : List Char) = ' ' :: "TB".toList from rfl]
    unfold convertUserBytes
    simp only [List.any_cons, List.any_nil, List.map_cons, List.map_nil,
      hb, hk, hm, hg, htb, isPanicked, Bool.or_false, Bool.false_or,
      Bool.false_eq_true, if_false]
  · rw [show ("512 bytes".toList : List Char) = "512".toList ++ ' ' :: "bytes".toList from rfl]
    exact convertUserBytes_singleton false _ 512
      (convertOne_unit_bytes (kbOf false) ("512".toList) 512 parseNum_512)
  · rw [show ("2 KB".toList : List Char) = "2".toList ++ ' ' :: "KB".toList from rfl]
    have h := convertOne_unit_KB (kbOf false) ("2".toList) 2 parseNum_2
    rw [show (2 : ℚ) * kbOf false = 2000 from by norm_num [kbOf]] at h
    exact convertUserBytes_singleton false _ 2000 h
  · rw [show ("1 MB".toList : List Char) = "1".toList ++ ' ' :: "MB".toList from rfl]
    have h := convertOne_unit_MB (kbOf true) ("1".toList) 1 parseNum_1
    rw [show (1 : ℚ) * kbOf true ^ 2 = 1048576 from by norm_num [kbOf]] at h
    exact convertUserBytes_singleton true _ 1048576 h
  · rw [show ("1.5 GB".toList : List Char) = "1.5".toList ++ ' ' :: "GB".toList from rfl]
    have h := convertOne_unit_GB (kbOf false) ("1.5".toList) (3 / 2) parseNum_1_5
    rw [show (3 / 2 : ℚ) * kbOf false ^ 3 = 1500000000 from by norm_num [kbOf]] at h
    exact convertUserBytes_singleton false _ 1500000000 h

/-- Witness for `convertUserBytes_unit_table` at the numeral `"2"`. -/
theorem convertUserBytes_unit_table_witness :
    convertUserBytes false ["2".toList ++ " bytes".toList, "2".toList ++ " KB".toList,
        "2".toList ++ " MB".toList, "2".toList ++ " GB".toList, "2".toList ++ " TB".toList] =
      some [.value 2, .value (2 * kbOf false), .value (2 * kbOf false ^ 2),
        .value (2 * kbOf false ^ 3), .value (2 * kbOf false ^ 4)] :=
  (convertUserBytes_unit_table false ("2".toList) 2 parseNum_2).1

/-- The `AuthCredentials.Type` values of the google package. -/
inductive GType where
  | api_key
  | oauth_client
  | service_account
deriving DecidableEq

/-- The `AuthCredentials` fields `NewClient` branches on (`CICD`, `Type`,
`Credentials`); scopes are handled through the `scopesOk` oracle below. -/
structure GAuth where
  cicd : Bool
  type : GType
  credentials : List Char

/-- Error values `NewClient` can return; `jwtErr` wraps an error produced
by `GenerateJWT`. -/
inductive GErr where
  | scopesErr
  | apiKeyNotSet
  | oauthNotSet
  | saNotSet
  | decodeErr
  | unmarshalErr
  | jwtErr (e : Nat)
deriving DecidableEq

/-- External collaborators of `google.NewClient`, abstracted as oracles:
environment variables read by `config.GetEnv`, `base64.StdEncoding
.DecodeString` (`none` = decode error), `json.Unmarshal` success on the
decoded `GoogleConfig`, `os.ReadFile` (`Except` error is only logged by
the code, which then proceeds with a nil slice), and `GenerateJWT`. -/
structure GEnv where
  googleApiKey : List Char
  googleOauthClient : List Char
  googleServiceAccount : List Char
  b64decode : List Char → Option (List Nat)
  unmarshalOk : List Nat → Bool
  readFile : List Char → Except Nat (List Nat)
  generateJWT : List Nat → Except Nat Unit

/-- Model of `google.NewClient` (google.go lines 182-298), from the point where the
scope-loading loop either fails (`scopesOk = false`, an early
`return nil, err`) or succeeds.  The credential `switch` on
`(CICD, Type)` is translated branch for branch; every branch that does not
`return` falls through to the final `return nil, nil`.  The client is
opaque (`Unit`): the claim concerns only nil-ness of the two results. -/
def googleNewClient (env : GEnv) (ac : GAuth) (scopesOk : Bool) :
    Option Unit × Option GErr :=
  if scopesOk = false then (none, some .scopesErr)
  else
    match ac.cicd, ac.type with
    | true, .api_key =>
      if (("Bearer ".toList : List Char) ++ env.googleApiKey).length ≤ 7 then
        (none, some .apiKeyNotSet)
      else (none, none)
    | true, .oauth_client =>
      if env.googleOauthClient.length = 0 then (none, some .oauthNotSet)
      else
        match env.b64decode env.googleOauthClient with
        | none => (none, some .decodeErr)
        | some bs =>
          if env.unmarshalOk bs then (none, none) else (none, some .unmarshalErr)
    | true, .service_account =>
      if env.googleServiceAccount.length = 0 then (none, some .saNotSet)
      else
        match env.b64decode env.googleServiceAccount with
        | none => (none, some .decodeErr)
        | some bs =>
          match env.generateJWT bs with
          | .error e => (none, some (.jwtErr e))
          | .ok _ => (some (), none)
    | false, .api_key =>
      if (("Bearer ".toList : List Char) ++ ac.credentials).length ≤ 7 then
        (none, some .apiKeyNotSet)
      else (none, none)
    | false, .oauth_client => (none, none)
    | false, .service_account =>
      match env.generateJWT (match env.readFile ac.credentials with
        | .ok bs => bs
        | .error _ => []) with
      | .error e => (none, some (.jwtErr e))
      | .ok _ => (some (), none)

/-- Claim C9: whenever the scope loading succeeds, an `API_KEY` credential
with a non-empty key, or an `OAUTH_CLIENT` credential whose value decodes
(and unmarshals, in the CICD branch), makes `google.NewClient` return a nil
client together with a nil error — the branches fall through to the final
`return nil, nil` — and conversely a non-nil client is only ever produced
for the `SERVICE_ACCOUNT` type. -/
theorem googleNewClient_nil_nil (env : GEnv) (ac : GAuth) :
    (ac.type = .api_key →
      (ac.cicd = true → env.googleApiKey ≠ []) →
      (ac.cicd = false → ac.credentials ≠ []) →
      googleNewClient env ac true = (none, none)) ∧
    (ac.type = .oauth_client → ac.cicd = true →
      ∀ bs, env.googleOauthClient ≠ [] →
        env.b64decode env.googleOauthClient = some bs →
        env.unmarshalOk bs = true →
        googleNewClient env ac true = (none, none)) ∧
    (ac.type = .oauth_client → ac.cicd = false →
      googleNewClient env ac true = (none, none)) ∧
    (∀ scopesOk c e, googleNewClient env ac scopesOk = (some c, e) →
      ac.type = .service_account) := by
  obtain ⟨cicd, ty, creds⟩ := ac
  refine ⟨?_, ?_, ?_, ?_⟩
  · intro hty hk1 hk2
    subst hty
    cases cicd with
    | true =>
      have hne : env.googleApiKey ≠ [] := hk1 rfl
      have hlen : ¬ (("Bearer ".toList : List Char) ++ env.googleApiKey).length ≤ 7 := by
        rw [List.length_append]
        have : env.googleApiKey.length ≠ 0 := fun h0 => hne (List.length_eq_zero.mp h0)
        have h7 : ("Bearer ".toList : List Char).length = 7 := by decide
        omega
      simp only [googleNewClient, if_neg hlen]
      rfl
    | false =>
      have hne : creds ≠ [] := hk2 rfl
      have hlen : ¬ (("Bearer ".toList : List Char) ++ creds).length ≤ 7 := by
        rw [List.length_append]
        have : creds.length ≠ 0 := fun h0 => hne (List.length_eq_zero.mp h0)
        have h7 : ("Bearer ".toList : List Char).length = 7 := by decide
        omega
      simp only [googleNewClient, if_neg hlen]
      rfl
  · intro hty hc bs hne hdec hun
    subst hty; subst hc
    have hlen : ¬ env.googleOauthClient.length = 0 :=
      fun h0 => hne (List.length_eq_zero.mp h0)
    simp only [googleNewClient, if_neg hlen, hdec, hun]
    rfl
  · intro hty hc
    subst hty; subst hc
    rfl
  · intro scopesOk c e h
    cases scopesOk with
    | false => simp [googleNewClient] at h
    | true =>
      cases cicd with
      | true =>
        cases ty with
        | service_account => rfl
        | api_key =>
          exfalso
          simp only [googleNewClient] at h
          rw [if_neg (by decide : ¬(true = false))] at h
          split at h <;> simp at h
        | oauth_client =>
          exfalso
          simp only [googleNewClient] at h
          rw [if_neg (by decide : ¬(true = false))] at h
          split at h
          · simp at h
          · split at h
            · simp at h
            · split at h <;> simp at h
      | false =>
        cases ty with
        | service_account => rfl
        | api_key =>
          exfalso
          simp only [googleNewClient] at h
          rw [if_neg (by decide : ¬(true = false))] at h
          split at h <;> simp at h
        | oauth_client =>
          exfalso
          simp [googleNewClient] at h

/-- Witness for `googleNewClient_nil_nil`: a CICD API-key client with a
non-empty key from the environment falls through to `(nil, nil)`. -/
theorem googleNewClient_nil_nil_witness :
    googleNewClient
      ⟨"k".toList, [], [], fun _ => none, fun _ => false, fun _ => .error 0,
        fun _ => .error 0⟩
      ⟨true, .api_key, []⟩ true = (none, none) :=
  (googleNewClient_nil_nil
      ⟨"k".toList, [], [], fun _ => none, fun _ => false, fun _ => .error 0,
        fun _ => .error 0⟩
      ⟨true, .api_key, []⟩).1 rfl (fun _ => by decide) (fun h => Bool.noConfusion h)

/-- Model of `strings.TrimPrefix(s, pre)` (okta.go lines 64-65). -/
def goTrimPre (s pre : List Char) : List Char :=
  if s.take pre.length = pre then s.drop pre.length else s

/-- Model of `strings.TrimSuffix(s, suf)` (okta.go lines 66 and 71). -/
def goTrimSuf (s suf : List Char) : List Char :=
  if s.reverse.take suf.length = suf.reverse then (s.reverse.drop suf.length).reverse else s

/-- Membership in the cutset `"./"` of `strings.Trim` (okta.go line 70). -/
def inCut (c : Char) : Bool := c == '.' || c == '/'

/-- Model of `strings.Trim(base, "./")`: strip leading and trailing `'.'`/`'/'`. -/
def goTrim (s : List Char) : List Char :=
  ((s.dropWhile inCut).reverse.dropWhile inCut).reverse

/-- The `org_name` normalization of `okta.NewClient` (okta.go lines 62-66):
strip a leading `https://`, then a leading `http://`, then a trailing
`.okta.com`. -/
def normalizeOrg (org : List Char) : List Char :=
  goTrimSuf (goTrimPre (goTrimPre org ("https://".toList)) ("http://".toList)) (".okta.com".toList)

/-- The `base` normalization of `okta.NewClient` (okta.go lines 68-71):
trim leading/trailing `'.'` and `'/'`, then strip a trailing `.com`. -/
def normalizeBase (base : List Char) : List Char :=
  goTrimSuf (goTrim base) (".com".toList)

/-- The client `BaseURL` built by `okta.NewClient` (okta.go lines 26 and
75): `fmt.Sprintf("https://%s.%s.com/api/v1", org_name, base)` after both
normalizations. -/
def oktaBaseURL (org base : List Char) : List Char :=
  "https://".toList ++ normalizeOrg org ++ ".".toList ++ normalizeBase base ++ ".com/api/v1".toList

/-- Trimming an exact prefix removes it. -/
theorem goTrimPre_append (pre s : List Char) : goTrimPre (pre ++ s) pre = s := by
  unfold goTrimPre
  rw [if_pos (List.take_left pre s), List.drop_left]

/-- A string missing some character of `pre` is left unchanged. -/
theorem goTrimPre_no_char (s pre : List Char) (c : Char)
    (hc : c ∈ pre) (hs : c ∉ s) : goTrimPre s pre = s := by
  unfold goTrimPre
  rw [if_neg]
  intro h
  exact hs (List.take_subset _ _ (h ▸ hc))

/-- Trimming an exact suffix removes it. -/
theorem goTrimSuf_append (s suf : List Char) : goTrimSuf (s ++ suf) suf = s := by
  unfold goTrimSuf
  have h1 : (s ++ suf).reverse.take suf.length = suf.reverse := by
    rw [List.reverse_append, show suf.length = suf.reverse.length from
      (List.length_reverse suf).symm, List.take_left]
  have h2 : (s ++ suf).reverse.drop suf.length = s.reverse := by
    rw [List.reverse_append, show suf.length = suf.reverse.length from
      (List.length_reverse suf).symm, List.drop_left]
  rw [if_pos h1, h2, List.reverse_reverse]

/-- A string missing some character of `suf` is left unchanged. -/
theorem goTrimSuf_no_char (s suf : List Char) (c : Char)
    (hc : c ∈ suf) (hs : c ∉ s) : goTrimSuf s suf = s := by
  unfold goTrimSuf
  rw [if_neg]
  intro h
  have hrev : c ∈ suf.reverse := List.mem_reverse.mpr hc
  exact hs (List.mem_reverse.mp (List.take_subset _ _ (h ▸ hrev)))

/-- The string `http://…` does not start with `https://` (the characters at index 4
differ), so the first `TrimPrefix` is a no-op on it. -/
theorem goTrimPre_http_unchanged (org : List Char) :
    goTrimPre ("http://".toList ++ org) ("https://".toList) = "http://".toList ++ org := by
  unfold goTrimPre
  rw [if_neg]
  intro h
  have h4 : ((("http://".toList : List Char) ++ org).take
      (("https://".toList : List Char)).length)[4]? = (("https://".toList : List Char))[4]? := by
    rw [h]
  rw [List.getElem?_take_of_lt (by decide), List.getElem?_append_left (by decide)] at h4
  exact absurd h4 (by decide)

/-- A list with no cutset characters survives `dropWhile inCut`. -/
theorem dropWhile_inCut_clean (l : List Char) (h : ∀ c ∈ l, inCut c = false) :
    l.dropWhile inCut = l := by
  cases l with
  | nil => rfl
  | cons a t =>
    rw [List.dropWhile_cons, h a (List.mem_cons_self a t)]
    simp

/-- A clean string survives `strings.Trim(·, "./")`. -/
theorem goTrim_clean (s : List Char) (h : ∀ c ∈ s, inCut c = false) : goTrim s = s := by
  unfold goTrim
  rw [dropWhile_inCut_clean s h,
    dropWhile_inCut_clean s.reverse (fun c hc => h c (List.mem_reverse.mp hc)),
    List.reverse_reverse]

/-- A character distinct from `'.'` and `'/'` is not in the cutset. -/
theorem inCut_eq_false (c : Char) (h1 : c ≠ '.') (h2 : c ≠ '/') : inCut c = false := by
  unfold inCut
  rw [beq_eq_false_iff_ne.mpr h1, beq_eq_false_iff_ne.mpr h2]
  rfl

/-- The map `normalizeOrg` is the identity on an org name with no dots or
slashes. -/
theorem normalizeOrg_clean (org : List Char)
    (h : ∀ c ∈ org, c ≠ '.' ∧ c ≠ '/') : normalizeOrg org = org := by
  have hs : ('/' : Char) ∉ org := fun hm => (h '/' hm).2 rfl
  have hd : ('.' : Char) ∉ org := fun hm => (h '.' hm).1 rfl
  unfold normalizeOrg
  rw [goTrimPre_no_char org _ '/' (by decide) hs,
    goTrimPre_no_char org _ '/' (by decide) hs,
    goTrimSuf_no_char org _ '.' (by decide) hd]

/-- The map `normalizeOrg` strips a decorated `https://<org>.okta.com` down to the
clean org name. -/
theorem normalizeOrg_decorated (org : List Char)
    (h : ∀ c ∈ org, c ≠ '.' ∧ c ≠ '/') :
    normalizeOrg ("https://".toList ++ (org ++ ".okta.com".toList)) = org := by
  have hs : ('/' : Char) ∉ org ++ ".okta.com".toList := fun hm => by
    rcases List.mem_append.mp hm with h1 | h2
    · exact (h '/' h1).2 rfl
    · exact absurd h2 (by decide)
  unfold normalizeOrg
  rw [goTrimPre_append, goTrimPre_no_char _ _ '/' (by decide) hs, goTrimSuf_append]

/-- The map `normalizeOrg` strips a leading `http://` from a clean org name. -/
theorem normalizeOrg_http (org : List Char)
    (h : ∀ c ∈ org, c ≠ '.' ∧ c ≠ '/') :
    normalizeOrg ("http://".toList ++ org) = org := by
  have hd : ('.' : Char) ∉ org := fun hm => (h '.' hm).1 rfl
  unfold normalizeOrg
  rw [goTrimPre_http_unchanged org, goTrimPre_append,
    goTrimSuf_no_char org _ '.' (by decide) hd]

/-- The map `normalizeBase` is the identity on a clean base. -/
theorem normalizeBase_clean (base : List Char)
    (h : ∀ c ∈ base, c ≠ '.' ∧ c ≠ '/') : normalizeBase base = base := by
  have hd : ('.' : Char) ∉ base := fun hm => (h '.' hm).1 rfl
  unfold normalizeBase
  rw [goTrim_clean base (fun c hc => inCut_eq_false c (h c hc).1 (h c hc).2),
    goTrimSuf_no_char base _ '.' (by decide) hd]

/-- The map `normalizeBase` strips a decorated `./<base>.com/` down to the clean
base. -/
theorem normalizeBase_decorated (base : List Char) (hne : base ≠ [])
    (h : ∀ c ∈ base, c ≠ '.' ∧ c ≠ '/') :
    normalizeBase (("./".toList ++ base) ++ ".com/".toList) = base := by
  unfold normalizeBase
  have e1 : (("./".toList ++ base) ++ ".com/".toList : List Char) =
      '.' :: '/' :: (base ++ ".com/".toList) := rfl
  have hstep1 : (("./".toList ++ base) ++ ".com/".toList).dropWhile inCut =
      base ++ ".com/".toList := by
    rw [e1, List.dropWhile_cons, if_pos (by decide : inCut '.' = true),
      List.dropWhile_cons, if_pos (by decide : inCut '/' = true)]
    cases base with
    | nil => exact absurd rfl hne
    | cons b bs =>
      have hb : inCut b = false :=
        inCut_eq_false b (h b (List.mem_cons_self b bs)).1 (h b (List.mem_cons_self b bs)).2
      rw [show ((b :: bs) ++ ".com/".toList : List Char) = b :: (bs ++ ".com/".toList) from rfl,
        List.dropWhile_cons, hb]
      simp
  have hstep2 : (base ++ ".com/".toList).reverse =
      '/' :: 'm' :: 'o' :: 'c' :: '.' :: base.reverse := by
    rw [List.reverse_append, show ((".com/".toList : List Char)).reverse =
      ['/', 'm', 'o', 'c', '.'] from by decide]
    rfl
  unfold goTrim
  rw [hstep1, hstep2, List.dropWhile_cons, if_pos (by decide : inCut '/' = true),
    List.dropWhile_cons, if_neg (by decide : ¬(inCut 'm' = true))]
  rw [show ('m' :: 'o' :: 'c' :: '.' :: base.reverse : List Char) =
    (['m', 'o', 'c', '.'] : List Char) ++ base.reverse from rfl,
    List.reverse_append, List.reverse_reverse,
    show ((['m', 'o', 'c', '.'] : List Char)).reverse = ".com".toList from by decide]
  exact goTrimSuf_append base (".com".toList)

/-- Claim C10: `okta.NewClient` normalizes its inputs before templating the
base URL: on a clean org (no `'.'`/`'/'` characters) and clean non-empty
base the produced `BaseURL` is exactly
`https://<org>.<base>.com/api/v1`, and the very same `BaseURL` results when
the org arrives decorated as `https://<org>.okta.com` or `http://<org>`, or
the base arrives decorated as `./<base>.com/` — the strip/trim steps cancel
the decorations. -/
theorem oktaNewClient_baseURL (org base : List Char)
    (horg : ∀ c ∈ org, c ≠ '.' ∧ c ≠ '/')
    (hbase : ∀ c ∈ base, c ≠ '.' ∧ c ≠ '/')
    (hbne : base ≠ []) :
    oktaBaseURL org base =
      "https://".toList ++ org ++ ".".toList ++ base ++ ".com/api/v1".toList ∧
    oktaBaseURL ("https://".toList ++ (org ++ ".okta.com".toList)) base =
      oktaBaseURL org base ∧
    oktaBaseURL ("http://".toList ++ org) base = oktaBaseURL org base ∧
    oktaBaseURL org (("./".toList ++ base) ++ ".com/".toList) = oktaBaseURL org base := by
  refine ⟨?_, ?_, ?_, ?_⟩
  · unfold oktaBaseURL
    rw [normalizeOrg_clean org horg, normalizeBase_clean base hbase]
  · unfold oktaBaseURL
    rw [normalizeOrg_decorated org horg, normalizeOrg_clean org horg]
  · unfold oktaBaseURL
    rw [normalizeOrg_http org horg, normalizeOrg_clean org horg]
  · unfold oktaBaseURL
    rw [normalizeBase_decorated base hbne hbase, normalizeBase_clean base hbase]

/-- Witness for `oktaNewClient_baseURL` at org `acme` and base `okta`. -/
theorem oktaNewClient_baseURL_witness :
    oktaBaseURL ("acme".toList) ("okta".toList) =
      "https://".toList ++ "acme".toList ++ ".".toList ++ "okta".toList ++
        ".com/api/v1".toList ∧
    oktaBaseURL ("https://".toList ++ ("acme".toList ++ ".okta.com".toList)) ("okta".toList) =
      oktaBaseURL ("acme".toList) ("okta".toList) :=
  ⟨(oktaNewClient_baseURL ("acme".toList) ("okta".toList) (by decide) (by decide)
      (by decide)).1,
    (oktaNewClient_baseURL ("acme".toList) ("okta".toList) (by decide) (by decide)
      (by decide)).2.1⟩
